import Mathlib

/-!
Verification of the starpls type-inference core against its specification.

The definitions below are a shallow embedding of the Rust sources:
  * `crates/starpls_hir/src/typeck.rs` — the type representation (`Ty`),
    generics (`Binders`, `Substitution`, `Ty::substitute`), the shared
    inference state (`SharedState`, `InferenceCtxt`, `CancelGuard`) and the
    inference engine (`TyCtxt::infer_expr` and friends);
  * `crates/starpls/src/dispatcher.rs` — the request dispatch / retry
    protocol.

Machine conventions used throughout the embedding:
  * Rust panics (the `TypecheckCancelled::throw` unwind, out-of-bounds
    substitution indices) are modelled with an explicit error type `Err`;
    an inference step returns `Except Err α × St`, keeping the shared state
    that survives a Rust unwind.
  * Recursion through arbitrary expression ids is made total with an
    explicit fuel parameter; exhausting fuel is the distinguished error
    `Err.outOfFuel`, never confused with cancellation.  The memo lookup and
    the cancellation check of `infer_expr` are placed before the fuel check,
    exactly as they precede all other work in the source.
  * `format!`-built diagnostic strings are represented by the structured
    message type `Msg` (one constructor per `format!` call site, carrying
    the same data that the source interpolates).
  * External collaborators (lowering, the source map, name resolution, the
    builtin-type catalog) are supplied as record fields of `Module` / `Db`,
    mirroring the query results the source obtains from them.
-/

namespace Starpls

/-- Literal kinds, from `def::Literal` as used by `typeck.rs` (`Expr::Literal` arm). -/
inductive Literal where
  | int
  | float
  | string
  | bytes
  | bool
  | none
deriving DecidableEq

/-- Unary operators, from `starpls_syntax::ast::UnaryOp` as matched in
`TyCtxt::infer_unary_expr`: `Arith(_)`, `Inv` and `Not`. -/
inductive UnaryOp where
  | arith
  | inv
  | not
deriving DecidableEq

/-- Binary operator classes, from `starpls_syntax::ast::BinaryOp` as matched in
`TyCtxt::infer_binary_expr`: `Arith(_)`, `Bitwise(_)`, and the catch-all
(comparisons, membership, boolean combinators) that always yields `bool`. -/
inductive BinOp where
  | arith
  | bitwise
  | other
deriving DecidableEq

/-- Type kinds, from `TyKind` in `typeck.rs`.  Interning (`Interned<TyKind>`)
makes two `Ty` values equal iff their kind trees are equal, so the interned
`Ty` and the raw `TyKind` collapse to a single structural inductive here.
`BuiltinFunction` carries the function's catalog id and the args of its
attached `Substitution`. -/
inductive Ty where
  | unbound
  | unknown
  | any
  | none
  | bool
  | int
  | float
  | string
  | stringElems
  | bytes
  | bytesElems
  | list (ty : Ty)
  | tuple (tys : List Ty)
  | dict (keyTy valueTy : Ty)
  | range
  | builtinFunction (func : Nat) (substArgs : List Ty)
  | boundVar (index : Nat)

mutual
/-- Structural boolean equality on `Ty` (the equality interning reifies;
`deriving DecidableEq` does not handle the nested `List Ty`, so it is spelled
out and proved lawful below). -/
def Ty.beq : Ty → Ty → Bool
  | .unbound, .unbound => true
  | .unknown, .unknown => true
  | .any, .any => true
  | .none, .none => true
  | .bool, .bool => true
  | .int, .int => true
  | .float, .float => true
  | .string, .string => true
  | .stringElems, .stringElems => true
  | .bytes, .bytes => true
  | .bytesElems, .bytesElems => true
  | .list a, .list b => Ty.beq a b
  | .tuple as, .tuple bs => Ty.beqList as bs
  | .dict ka va, .dict kb vb => Ty.beq ka kb && Ty.beq va vb
  | .range, .range => true
  | .builtinFunction fa sa, .builtinFunction fb sb => fa == fb && Ty.beqList sa sb
  | .boundVar ia, .boundVar ib => ia == ib
  | _, _ => false

/-- `Ty.beq` lifted elementwise to lists. -/
def Ty.beqList : List Ty → List Ty → Bool
  | [], [] => true
  | a :: as, b :: bs => Ty.beq a b && Ty.beqList as bs
  | _, _ => false
end

set_option maxHeartbeats 2000000

mutual
theorem Ty.beq_refl : ∀ a : Ty, Ty.beq a a = true
  | .unbound => rfl
  | .unknown => rfl
  | .any => rfl
  | .none => rfl
  | .bool => rfl
  | .int => rfl
  | .float => rfl
  | .string => rfl
  | .stringElems => rfl
  | .bytes => rfl
  | .bytesElems => rfl
  | .list a => by rw [Ty.beq]; exact Ty.beq_refl a
  | .tuple as => by rw [Ty.beq]; exact Ty.beqList_refl as
  | .dict k v => by rw [Ty.beq, Ty.beq_refl k, Ty.beq_refl v]; rfl
  | .range => rfl
  | .builtinFunction f s => by rw [Ty.beq, Ty.beqList_refl s]; simp
  | .boundVar i => by rw [Ty.beq]; simp

theorem Ty.beqList_refl : ∀ as : List Ty, Ty.beqList as as = true
  | [] => rfl
  | a :: as => by rw [Ty.beqList, Ty.beq_refl a, Ty.beqList_refl as]; rfl
end

mutual
theorem Ty.eq_of_beq : ∀ a b : Ty, Ty.beq a b = true → a = b
  | .unbound, b => by cases b <;> simp [Ty.beq]
  | .unknown, b => by cases b <;> simp [Ty.beq]
  | .any, b => by cases b <;> simp [Ty.beq]
  | .none, b => by cases b <;> simp [Ty.beq]
  | .bool, b => by cases b <;> simp [Ty.beq]
  | .int, b => by cases b <;> simp [Ty.beq]
  | .float, b => by cases b <;> simp [Ty.beq]
  | .string, b => by cases b <;> simp [Ty.beq]
  | .stringElems, b => by cases b <;> simp [Ty.beq]
  | .bytes, b => by cases b <;> simp [Ty.beq]
  | .bytesElems, b => by cases b <;> simp [Ty.beq]
  | .range, b => by cases b <;> simp [Ty.beq]
  | .list a, b => by
      cases b <;> simp [Ty.beq]
      exact fun h => Ty.eq_of_beq a _ h
  | .tuple as, b => by
      cases b <;> simp [Ty.beq]
      exact fun h => Ty.eqList_of_beqList as _ h
  | .dict ka va, b => by
      cases b <;> simp [Ty.beq]
      exact fun h1 h2 => ⟨Ty.eq_of_beq ka _ h1, Ty.eq_of_beq va _ h2⟩
  | .builtinFunction fa sa, b => by
      cases b <;> simp [Ty.beq]
      exact fun h1 h2 => ⟨h1, Ty.eqList_of_beqList sa _ h2⟩
  | .boundVar ia, b => by cases b <;> simp [Ty.beq]

theorem Ty.eqList_of_beqList : ∀ as bs : List Ty, Ty.beqList as bs = true → as = bs
  | [], bs => by cases bs <;> simp [Ty.beqList]
  | a :: as, bs => by
      cases bs with
      | nil => simp [Ty.beqList]
      | cons b bs =>
          simp only [Ty.beqList, Bool.and_eq_true, List.cons.injEq]
          exact fun h => ⟨Ty.eq_of_beq a b h.1, Ty.eqList_of_beqList as bs h.2⟩
end

instance : DecidableEq Ty := fun a b =>
  decidable_of_iff (Ty.beq a b = true)
    ⟨Ty.eq_of_beq a b, fun h => h ▸ Ty.beq_refl a⟩

mutual
/-- `Ty::substitute` from `typeck.rs`: recursively replace `BoundVar(i)` by
`args[i]`, recursing structurally into `List`/`Tuple`/`Dict`/`BuiltinFunction`
and leaving all other kinds unchanged.  The source indexes `args[*index]`,
which panics when the index is out of range; that failure is modelled by
`Option.none`. -/
def Ty.substitute : Ty → List Ty → Option Ty
  | .list ty, args => (Ty.substitute ty args).map .list
  | .tuple tys, args => (Ty.substituteList tys args).map .tuple
  | .dict keyTy valueTy, args => do
      pure (.dict (← Ty.substitute keyTy args) (← Ty.substitute valueTy args))
  | .builtinFunction f substArgs, args =>
      (Ty.substituteList substArgs args).map (.builtinFunction f)
  | .boundVar index, args => args[index]?
  | t, _ => some t

/-- Elementwise substitution over a type list (the `iter().map(...).collect()`
loops of `Ty::substitute` and `Substitution::substitute`). -/
def Ty.substituteList : List Ty → List Ty → Option (List Ty)
  | [], _ => some []
  | t :: ts, args => do
      pure ((← Ty.substitute t args) :: (← Ty.substituteList ts args))
end

/-- `Substitution` from `typeck.rs`: an ordered sequence of concrete types,
one per bound-variable index. -/
structure Substitution where
  args : List Ty
deriving DecidableEq

/-- `Substitution::new_identity(num_vars)`: maps each index `i < num_vars`
to `BoundVar(i)`. -/
def Substitution.new_identity (numVars : Nat) : Substitution :=
  ⟨(List.range numVars).map Ty.boundVar⟩

/-- `Binders` from `typeck.rs`: a type template parameterized by
`num_vars` bound variables. -/
structure Binders where
  num_vars : Nat
  ty : Ty
deriving DecidableEq

/-- `Binders::substitute`: apply a substitution's args to the template. -/
def Binders.substitute (b : Binders) (subst : Substitution) : Option Ty :=
  b.ty.substitute subst.args

/-- `FileExprId` from `typeck.rs`: a source file identity paired with an
expression id local to that file's lowered module. -/
structure FileExprId where
  file : Nat
  expr : Nat
deriving DecidableEq

/-- A syntax text range (`TextRange` of the source map), carried by
diagnostics. -/
structure TextRange where
  lo : Nat
  hi : Nat
deriving DecidableEq

/-- `FileRange` from `starpls_common`: file id plus text range. -/
structure FileRange where
  file_id : Nat
  range : TextRange
deriving DecidableEq

/-- Diagnostic severity; `typeck.rs` only ever emits `Severity::Error`. -/
inductive Severity where
  | error
deriving DecidableEq

/-- Structured stand-ins for the `format!` diagnostic strings of
`typeck.rs`, one constructor per `format!` call site, carrying the data the
source interpolates into the message. -/
inductive Msg where
  | cannotAccessField (field : String) (ty : Ty)
  | cannotIndexList (indexTy : Ty)
  | cannotIndexDict (indexTy : Ty)
  | notIndexable (ty : Ty)
  | notCallable (ty : Ty)
  | unaryOpNotSupported (op : UnaryOp) (ty : Ty)
  | binOpNotSupported (op : BinOp) (lhsTy rhsTy : Ty)
  | notIterable (ty : Ty)
deriving DecidableEq

/-- `Diagnostic` from `starpls_common` as constructed by
`TyCtxt::add_diagnostic`. -/
structure Diagnostic where
  message : Msg
  severity : Severity
  range : FileRange
deriving DecidableEq

/-- `InferenceCtxt` from `typeck.rs`: the shared memo map and diagnostics
list.  The `FxHashMap` is modelled as an association list where insertion
prepends; `lookupCache` returns the most recent binding, giving the map's
insert-overwrites semantics. -/
structure InferenceCtxt where
  diagnostics : List Diagnostic := []
  type_of_expr : List (FileExprId × Ty) := []
deriving DecidableEq

/-- The whole shared state visible to one `TyCtxt`: the lock-free
`SharedState.cancelled` flag plus the mutex-guarded `InferenceCtxt`. -/
structure St where
  cancelled : Bool := false
  cx : InferenceCtxt := {}
deriving DecidableEq

/-- Lookup in the association-list model of `FxHashMap<FileExprId, Ty>`. -/
def lookupCache : List (FileExprId × Ty) → FileExprId → Option Ty
  | [], _ => Option.none
  | p :: rest, k => if p.1 = k then some p.2 else lookupCache rest k

/-- `CancelGuard::new` (`typeck.rs`): acquiring the guard stores `true` into
the shared cancellation flag; the inference cache is left untouched. -/
def CancelGuard.new (s : St) : St :=
  { s with cancelled := true }

/-- `Drop for CancelGuard` (`typeck.rs`): releasing the guard locks the
context, stores `false` into the cancellation flag, and replaces the whole
`InferenceCtxt` with its `Default` value. -/
def CancelGuard.drop (_ : St) : St :=
  { cancelled := false, cx := {} }

/-- Declarations returned by the external name resolver, restricted to the
variants `typeck.rs` matches on (`Declaration::Variable { id, source }`,
`Function`, `Parameter`, `LoadItem`).  `Variable`'s `id` is the expression id
of the binding occurrence, `source` the optional right-hand-side expression.
(`variable` is a Lean keyword, hence `varDecl`.) -/
inductive Declaration where
  | varDecl (id : Nat) (source : Option Nat)
  | function
  | parameter
  | loadItem
deriving DecidableEq

/-- Lowered expressions, from `def::Expr` as matched by `typeck.rs`.
Children are expression ids into the module's arena.  Shapes `typeck.rs`
never names individually (lambdas, conditionals, ...) are collapsed into
`missing`, which like `Tuple` and `Paren` falls into `infer_expr`'s
catch-all `_ => Any` arm. -/
inductive Expr where
  | name (n : String)
  | list (exprs : List Nat)
  | listComp (children : List Nat)
  | dict (entries : List (Nat × Nat))
  | dictComp (children : List Nat)
  | lit (literal : Literal)
  | unary (op : Option UnaryOp) (expr : Nat)
  | binary (lhs rhs : Nat) (op : Option BinOp)
  | dot (expr : Nat) (field : String)
  | index (lhs index : Nat)
  | call (callee : Nat) (args : List Nat)
  | tuple (exprs : List Nat)
  | paren (expr : Nat)
  | missing
deriving DecidableEq

/-- Modelled from the spec: `Expr::walk_child_exprs` lives in `def.rs`,
which is not part of the given sources; the spec describes it as iteration
over an expression's immediate sub-expressions ("recursively through its
own sub-expressions"), so each constructor lists exactly its child
expression ids, in syntactic order. -/
def Expr.children : Expr → List Nat
  | .name _ => []
  | .list exprs => exprs
  | .listComp children => children
  | .dict entries => entries.flatMap fun e => [e.1, e.2]
  | .dictComp children => children
  | .lit _ => []
  | .unary _ e => [e]
  | .binary lhs rhs _ => [lhs, rhs]
  | .dot e _ => [e]
  | .index lhs idx => [lhs, idx]
  | .call callee args => callee :: args
  | .tuple exprs => exprs
  | .paren e => [e]
  | .missing => []

/-- The syntactic parent of a binding's source expression, as
`infer_source_expr_assign` recovers it through the external source map:
`noPtr` models `expr_map_back` having no pointer for the source (the
function returns immediately); otherwise the parent node is an assignment
statement (with optional left-hand side), a `for` statement (with optional
target list, already mapped to expression ids), or some other node kind. -/
inductive AssignParent where
  | noPtr
  | assignStmt (lhs : Option Nat)
  | forStmt (targets : Option (List Nat))
  | otherParent
deriving DecidableEq

/-- One file's lowered module together with the external query results
`typeck.rs` consumes for it: the expression arena (`lower_(db, file)`), the
name resolver (`Resolver::new_for_expr(..).resolve_name`, keyed by the name
expression's id), the source map's range lookup (`expr_map_back` composed
with `text_range`, used by `add_diagnostic`), and the syntactic-parent
classification used by `infer_source_expr_assign`. -/
structure Module where
  exprs : Nat → Expr
  resolve : Nat → Option (List Declaration)
  exprRange : Nat → Option TextRange
  assignParent : Nat → AssignParent

/-- The read-only database: per-file lowered modules plus the builtin type
catalog (`builtin_types` / `builtin_field_types`): field tables for the four
builtin classes `TyKind::builtin_class` knows about, and the return-type
template of each builtin function (`BuiltinFunction::ret_ty`). -/
structure Db where
  module : Nat → Module
  stringFields : List (String × Binders)
  bytesFields : List (String × Binders)
  listFields : List (String × Binders)
  dictFields : List (String × Binders)
  builtinRetTy : Nat → Ty

/-- `Ty::fields` from `typeck.rs`: look up the receiver's builtin class, build
the substitution from the receiver's own structural arguments (`[T]` for
`List(T)`, `[K, V]` for `Dict(K, V)`, empty otherwise), and instantiate every
field's `Binders` against it.  A field whose substitution hits an
out-of-range `BoundVar` is `Option.none` (a panic in the source). -/
def Ty.fields (db : Db) : Ty → Option (List (String × Option Ty))
  | .string => some (db.stringFields.map fun p => (p.1, p.2.substitute ⟨[]⟩))
  | .bytes => some (db.bytesFields.map fun p => (p.1, p.2.substitute ⟨[]⟩))
  | .list elTy => some (db.listFields.map fun p => (p.1, p.2.substitute ⟨[elTy]⟩))
  | .dict keyTy valueTy =>
      some (db.dictFields.map fun p => (p.1, p.2.substitute ⟨[keyTy, valueTy]⟩))
  | _ => Option.none

/-- Collects the field types of `Ty.fields`, failing if any single field's
substitution failed (the source's `collect()` panics while building the
`Vec` before any field is looked up). -/
def seqFields : List (String × Option Ty) → Option (List (String × Ty))
  | [] => some []
  | (n, some t) :: rest => (seqFields rest).map ((n, t) :: ·)
  | (_, Option.none) :: _ => Option.none

/-- Operational failures of an inference step: `cancelled` is the
`TypecheckCancelled` unwind, `fatal` an out-of-range substitution index
panic, and `outOfFuel` the artifact of making unbounded recursion total
(never produced on runs the theorems below talk about). -/
inductive Err where
  | cancelled
  | outOfFuel
  | fatal
deriving DecidableEq

/-- `TyCtxt::set_expr_type`: insert into the memo map and return the type. -/
def setExprType (file expr : Nat) (ty : Ty) (s : St) : Ty × St :=
  (ty, { s with cx := { s.cx with type_of_expr := (⟨file, expr⟩, ty) :: s.cx.type_of_expr } })

/-- `TyCtxt::add_diagnostic`: resolve the expression's range through the
source map; when it resolves, push an `Error`-severity diagnostic; either
way the result type is `Unknown`. -/
def addDiagnostic (db : Db) (file expr : Nat) (message : Msg) (s : St) : Ty × St :=
  match (db.module file).exprRange expr with
  | Option.none => (.unknown, s)
  | some range =>
      (.unknown,
        { s with cx :=
          { s.cx with diagnostics :=
            s.cx.diagnostics ++ [⟨message, .error, ⟨file, range⟩⟩] } })

/-- Wraps `setExprType` as the `Ok`-result of an inference arm (the value
of `infer_expr`'s big match flowing into the trailing `set_expr_type`). -/
def setR (file expr : Nat) (ty : Ty) (s : St) : Except Err Ty × St :=
  ((setExprType file expr ty s).1 |> .ok, (setExprType file expr ty s).2)

mutual
/-- `TyCtxt::assign_expr_unknown_rec`: force-assign `Unknown` to an
expression and recurse through all of its children. -/
def assignExprUnknownRec (fuel : Nat) (db : Db) (file expr : Nat) (s : St) :
    Except Err Unit × St :=
  match fuel with
  | 0 => (.error .outOfFuel, s)
  | f + 1 =>
      unknownRecList f db file ((db.module file).exprs expr).children
        (setExprType file expr .unknown s).2
termination_by structural fuel

/-- The `walk_child_exprs` loop of `assign_expr_unknown_rec`. -/
def unknownRecList (fuel : Nat) (db : Db) (file : Nat) (es : List Nat) (s : St) :
    Except Err Unit × St :=
  match fuel with
  | 0 => (.error .outOfFuel, s)
  | f + 1 =>
      match es with
      | [] => (.ok (), s)
      | e :: rest =>
          match assignExprUnknownRec f db file e s with
          | (.ok _, s1) => unknownRecList f db file rest s1
          | (.error err, s1) => (.error err, s1)
termination_by structural fuel

end

mutual
/-- `TyCtxt::assign_expr_source_ty`: a `Name` target is assigned the source
type; `List`/`Tuple` target patterns destructure it across their elements;
`Paren` unwraps; all other target shapes are ignored. -/
def assignExprSourceTy (fuel : Nat) (db : Db) (file root expr : Nat)
    (sourceTy : Ty) (s : St) : Except Err Unit × St :=
  match fuel with
  | 0 => (.error .outOfFuel, s)
  | f + 1 =>
      match (db.module file).exprs expr with
      | .name _ => (.ok (), (setExprType file expr sourceTy s).2)
      | .list exprs => assignExprsSourceTy f db file root exprs sourceTy s
      | .tuple exprs => assignExprsSourceTy f db file root exprs sourceTy s
      | .paren inner => assignExprSourceTy f db file root inner sourceTy s
      | _ => (.ok (), s)
termination_by structural fuel

/-- `TyCtxt::assign_exprs_source_ty`: compute the per-target type (`T` from a
`List(T)` source, `Any` from a `Tuple` or `Any` source); any other source
kind raises the "not iterable" diagnostic at `root` and force-assigns
`Unknown` to every target recursively. -/
def assignExprsSourceTy (fuel : Nat) (db : Db) (file root : Nat)
    (exprs : List Nat) (sourceTy : Ty) (s : St) : Except Err Unit × St :=
  match fuel with
  | 0 => (.error .outOfFuel, s)
  | f + 1 =>
      match sourceTy with
      | .list ty => assignSourceList f db file root exprs ty s
      | .tuple _ => assignSourceList f db file root exprs .any s
      | .any => assignSourceList f db file root exprs .any s
      | _ =>
          unknownRecList f db file exprs
            (addDiagnostic db file root (.notIterable sourceTy) s).2
termination_by structural fuel

/-- The target loop of `assign_exprs_source_ty`'s normal path. -/
def assignSourceList (fuel : Nat) (db : Db) (file root : Nat)
    (exprs : List Nat) (subTy : Ty) (s : St) : Except Err Unit × St :=
  match fuel with
  | 0 => (.error .outOfFuel, s)
  | f + 1 =>
      match exprs with
      | [] => (.ok (), s)
      | e :: rest =>
          match assignExprSourceTy f db file root e subTy s with
          | (.ok _, s1) => assignSourceList f db file root rest subTy s1
          | (.error err, s1) => (.error err, s1)
termination_by structural fuel

end

mutual
/-- `TyCtxt::infer_expr`.  Faithful to the source's entry sequence: the memo
lookup short-circuits first, then the lock-free cancellation flag is
observed and, when set, the typecheck-cancellation signal is raised before
anything is written; only then does the expression get inferred by shape
(the fuel check is the totality artifact, placed after both). -/
def infer (fuel : Nat) (db : Db) (file expr : Nat) (s : St) : Except Err Ty × St :=
  match fuel with
  | 0 =>
      match lookupCache s.cx.type_of_expr ⟨file, expr⟩ with
      | some ty => (.ok ty, s)
      | Option.none =>
          if s.cancelled then (.error .cancelled, s)
          else (.error .outOfFuel, s)
  | f + 1 =>
      match lookupCache s.cx.type_of_expr ⟨file, expr⟩ with
      | some ty => (.ok ty, s)
      | Option.none =>
          if s.cancelled then (.error .cancelled, s)
          else
            match (db.module file).exprs expr with
            | .name _ =>
                match (db.module file).resolve expr with
                | Option.none => setR file expr .unbound s
                | some decls =>
                    match decls.getLast? with
                    | some (.varDecl id src) =>
                        match src with
                        | Option.none => (.ok .unknown, s)
                        | some sourceE =>
                            match inferSourceExprAssign f db file sourceE s with
                            | (.ok _, s1) =>
                                (.ok ((lookupCache s1.cx.type_of_expr ⟨file, id⟩).getD .unknown), s1)
                            | (.error err, s1) => (.error err, s1)
                    | some .function => setR file expr .any s
                    | some .parameter => setR file expr .any s
                    | some .loadItem => setR file expr .any s
                    | Option.none => setR file expr .unbound s
            | .list exprs =>
                match getCommonType f db file exprs .unknown s with
                | (.ok ty, s1) => setR file expr (.list ty) s1
                | (.error err, s1) => (.error err, s1)
            | .listComp _ => setR file expr (.list .any) s
            | .dict entries =>
                match getCommonType f db file (entries.map Prod.fst) .any s with
                | (.ok keyTy, s1) =>
                    match getCommonType f db file (entries.map Prod.snd) .unknown s1 with
                    | (.ok valueTy, s2) => setR file expr (.dict keyTy valueTy) s2
                    | (.error err, s2) => (.error err, s2)
                | (.error err, s1) => (.error err, s1)
            | .dictComp _ => setR file expr (.dict .any .any) s
            | .lit l =>
                setR file expr
                  (match l with
                    | .int => .int
                    | .float => .float
                    | .string => .string
                    | .bytes => .bytes
                    | .bool => .bool
                    | .none => .none) s
            | .unary op x =>
                match op with
                | Option.none => setR file expr .unknown s
                | some op =>
                    match inferUnary f db file expr x op s with
                    | (.ok ty, s1) => setR file expr ty s1
                    | (.error err, s1) => (.error err, s1)
            | .binary lhs rhs op =>
                match op with
                | Option.none => setR file expr .unknown s
                | some op =>
                    match inferBinary f db file expr lhs rhs op s with
                    | (.ok ty, s1) => setR file expr ty s1
                    | (.error err, s1) => (.error err, s1)
            | .dot rcv field =>
                match infer f db file rcv s with
                | (.error err, s1) => (.error err, s1)
                | (.ok receiverTy, s1) =>
                    match receiverTy.fields db with
                    | Option.none =>
                        let p := addDiagnostic db file expr (.cannotAccessField field receiverTy) s1
                        setR file expr p.1 p.2
                    | some flds =>
                        match seqFields flds with
                        | Option.none => (.error .fatal, s1)
                        | some flds =>
                            match flds.find? (fun p => p.1 == field) with
                            | some p => setR file expr p.2 s1
                            | Option.none =>
                                let p := addDiagnostic db file expr (.cannotAccessField field receiverTy) s1
                                setR file expr p.1 p.2
            | .index lhs index =>
                match infer f db file lhs s with
                | (.error err, s1) => (.error err, s1)
                | (.ok lhsTy, s1) =>
                    match infer f db file index s1 with
                    | (.error err, s2) => (.error err, s2)
                    | (.ok indexTy, s2) =>
                        match lhsTy, indexTy with
                        | .list ty, .int => setR file expr ty s2
                        | .list _, _ =>
                            let p := addDiagnostic db file lhs (.cannotIndexList indexTy) s2
                            setR file expr p.1 p.2
                        | .dict keyTy valueTy, _ =>
                            if keyTy = indexTy then setR file expr valueTy s2
                            else
                              let p := addDiagnostic db file lhs (.cannotIndexDict indexTy) s2
                              setR file expr p.1 p.2
                        | .unknown, _ => setR file expr .unknown s2
                        | .any, _ => setR file expr .unknown s2
                        | _, _ =>
                            let p := addDiagnostic db file lhs (.notIndexable lhsTy) s2
                            setR file expr p.1 p.2
            | .call callee _ =>
                match infer f db file callee s with
                | (.error err, s1) => (.error err, s1)
                | (.ok calleeTy, s1) =>
                    match calleeTy with
                    | .builtinFunction fn substArgs =>
                        match (db.builtinRetTy fn).substitute substArgs with
                        | some retTy => setR file expr retTy s1
                        | Option.none => (.error .fatal, s1)
                    | .unknown => setR file expr .unknown s1
                    | .any => setR file expr .unknown s1
                    | _ =>
                        let p := addDiagnostic db file expr (.notCallable calleeTy) s1
                        setR file expr p.1 p.2
            | .tuple _ => setR file expr .any s
            | .paren _ => setR file expr .any s
            | .missing => setR file expr .any s
termination_by structural fuel

/-- `TyCtxt::infer_unary_expr`: infer the operand; an `Any` operand
short-circuits to `Any` before the operator is examined; arithmetic
negation echoes `Int`/`Float`, bitwise inversion requires `Int`, and `not`
yields `Bool`; anything else raises the "operator not supported"
diagnostic. -/
def inferUnary (fuel : Nat) (db : Db) (file parent x : Nat) (op : UnaryOp) (s : St) :
    Except Err Ty × St :=
  match fuel with
  | 0 => (.error .outOfFuel, s)
  | f + 1 =>
      match infer f db file x s with
      | (.error err, s1) => (.error err, s1)
      | (.ok ty, s1) =>
          if ty = .any then (.ok .any, s1)
          else
            match op with
            | .arith =>
                match ty with
                | .int => (.ok .int, s1)
                | .float => (.ok .float, s1)
                | _ =>
                    let p := addDiagnostic db file parent (.unaryOpNotSupported op ty) s1
                    (.ok p.1, p.2)
            | .inv =>
                match ty with
                | .int => (.ok .int, s1)
                | _ =>
                    let p := addDiagnostic db file parent (.unaryOpNotSupported op ty) s1
                    (.ok p.1, p.2)
            | .not => (.ok .bool, s1)
termination_by structural fuel

/-- `TyCtxt::infer_binary_expr`: infer both sides; either side `Any`
short-circuits to `Any`; arithmetic and bitwise operators check Int/Float
combinations; every other operator class yields `Bool` unchecked. -/
def inferBinary (fuel : Nat) (db : Db) (file parent lhs rhs : Nat) (op : BinOp) (s : St) :
    Except Err Ty × St :=
  match fuel with
  | 0 => (.error .outOfFuel, s)
  | f + 1 =>
      match infer f db file lhs s with
      | (.error err, s1) => (.error err, s1)
      | (.ok lhsTy, s1) =>
          match infer f db file rhs s1 with
          | (.error err, s2) => (.error err, s2)
          | (.ok rhsTy, s2) =>
              if lhsTy = .any ∨ rhsTy = .any then (.ok .any, s2)
              else
                match op with
                | .arith =>
                    match lhsTy, rhsTy with
                    | .int, .int => (.ok .int, s2)
                    | .float, .int => (.ok .float, s2)
                    | .int, .float => (.ok .float, s2)
                    | .float, .float => (.ok .float, s2)
                    | _, _ =>
                        let p := addDiagnostic db file parent (.binOpNotSupported op lhsTy rhsTy) s2
                        (.ok p.1, p.2)
                | .bitwise =>
                    match lhsTy, rhsTy with
                    | .int, .int => (.ok .int, s2)
                    | _, _ =>
                        let p := addDiagnostic db file parent (.binOpNotSupported op lhsTy rhsTy) s2
                        (.ok p.1, p.2)
                | .other => (.ok .bool, s2)
termination_by structural fuel

/-- `TyCtxt::get_common_type`: infer the first expression; the remaining
ones are inferred by a short-circuiting `all` comparing against the first
type; all-equal keeps the first type, otherwise (or when empty) the default
applies. -/
def getCommonType (fuel : Nat) (db : Db) (file : Nat) (exprs : List Nat)
    (dflt : Ty) (s : St) : Except Err Ty × St :=
  match fuel with
  | 0 =>
      match exprs with
      | [] => (.ok dflt, s)
      | _ :: _ => (.error .outOfFuel, s)
  | f + 1 =>
      match exprs with
      | [] => (.ok dflt, s)
      | first :: rest =>
          match infer f db file first s with
          | (.error err, s1) => (.error err, s1)
          | (.ok firstTy, s1) =>
              match inferAllEq f db file rest firstTy s1 with
              | (.ok true, s2) => (.ok firstTy, s2)
              | (.ok false, s2) => (.ok dflt, s2)
              | (.error err, s2) => (.error err, s2)
termination_by structural fuel

/-- The `iterator.all(|ty| ty == first_ty)` loop inside
`get_common_type`: infers elements left to right and stops at the first
mismatch. -/
def inferAllEq (fuel : Nat) (db : Db) (file : Nat) (exprs : List Nat)
    (firstTy : Ty) (s : St) : Except Err Bool × St :=
  match fuel with
  | 0 =>
      match exprs with
      | [] => (.ok true, s)
      | _ :: _ => (.error .outOfFuel, s)
  | f + 1 =>
      match exprs with
      | [] => (.ok true, s)
      | e :: rest =>
          match infer f db file e s with
          | (.error err, s1) => (.error err, s1)
          | (.ok ty, s1) =>
              if ty = firstTy then inferAllEq f db file rest firstTy s1
              else (.ok false, s1)
termination_by structural fuel

/-- `TyCtxt::infer_source_expr_assign`: find the binding's syntactic parent
through the source map (bailing out when the source has no pointer), infer
the source expression's type, and propagate it into the assignment's
left-hand side or the `for` statement's targets (the latter destructures
the source type once before handing the element type to
`assign_exprs_source_ty`). -/
def inferSourceExprAssign (fuel : Nat) (db : Db) (file source : Nat) (s : St) :
    Except Err Unit × St :=
  match fuel with
  | 0 => (.error .outOfFuel, s)
  | f + 1 =>
      match (db.module file).assignParent source with
      | .noPtr => (.ok (), s)
      | parent =>
          match infer f db file source s with
          | (.error err, s1) => (.error err, s1)
          | (.ok sourceTy, s1) =>
              match parent with
              | .assignStmt (some lhs) => assignExprSourceTy f db file lhs lhs sourceTy s1
              | .forStmt (some targets) =>
                  match sourceTy with
                  | .list ty => assignExprsSourceTy f db file source targets ty s1
                  | .tuple _ => assignExprsSourceTy f db file source targets .any s1
                  | .any => assignExprsSourceTy f db file source targets .any s1
                  | _ =>
                      unknownRecList f db file targets
                        (addDiagnostic db file source (.notIterable sourceTy) s1).2
              | _ => (.ok (), s1)
termination_by structural fuel

end

mutual
/-- The set of expression ids visited by `assign_expr_unknown_rec` starting
from `e`: the expression itself followed by the recursive visit of its
children, with the same fuel accounting as `assignExprUnknownRec`. -/
def exprDescendants (fuel : Nat) (db : Db) (file e : Nat) : List Nat :=
  match fuel with
  | 0 => []
  | f + 1 => e :: descendantsList f db file ((db.module file).exprs e).children
termination_by structural fuel

/-- `exprDescendants` over a list of roots, mirroring `unknownRecList`. -/
def descendantsList (fuel : Nat) (db : Db) (file : Nat) (es : List Nat) : List Nat :=
  match fuel with
  | 0 => []
  | f + 1 =>
      match es with
      | [] => []
      | e :: rest => exprDescendants f db file e ++ descendantsList f db file rest
termination_by structural fuel
end

/-- An inbound `lsp_server::Request` as the dispatcher sees it: id, method,
and params (params kept abstract; the serde decoding inside
`RequestDispatcher::parse` is the identity in this model). -/
structure Request where
  id : Nat
  method : String
  params : String
deriving DecidableEq

/-- A handler's `anyhow::Result`, classified the way
`RequestDispatcher::on` classifies it: success payload, an error that
downcasts to `starpls_ide::Cancelled`, or any other error with its
message. -/
inductive HandlerResult where
  | ok (payload : String)
  | errCancelled
  | errOther (msg : String)

/-- `lsp_server::Response`: success or error, addressed by request id. -/
inductive Response where
  | success (id : Nat) (payload : String)
  | failure (id : Nat) (code : Int) (message : String)
deriving DecidableEq

/-- `event_loop::Task` values produced by the dispatcher's spawned
closures. -/
inductive Task where
  | responseReady (resp : Response)
  | retry (req : Request)
deriving DecidableEq

/-- `lsp_server::ErrorCode::RequestFailed as i32`. -/
def requestFailedCode : Int := -32803

/-- `lsp_server::ErrorCode::MethodNotFound as i32`. -/
def methodNotFoundCode : Int := -32601

/-- The closure body `RequestDispatcher::on` spawns once a request matched a
handler: `Ok` becomes a success response, an error downcasting to
`Cancelled` resubmits the original request as a `Retry` task, any other
error becomes a `RequestFailed` response. -/
def onTask (req : Request) (handler : String → HandlerResult) : Task :=
  match handler req.params with
  | .ok payload => .responseReady (.success req.id payload)
  | .errCancelled => .retry req
  | .errOther msg => .responseReady (.failure req.id requestFailedCode msg)

/-- `RequestDispatcher::on`: when a request is still pending and its method
matches, the request is consumed and the handler's task is spawned;
otherwise the state is unchanged. -/
def dispatchOn (method : String) (handler : String → HandlerResult) :
    Option Request × List Task → Option Request × List Task
  | (some req, tasks) =>
      if req.method = method then (Option.none, tasks ++ [onTask req handler])
      else (some req, tasks)
  | (Option.none, tasks) => (Option.none, tasks)

/-- `RequestDispatcher::finish`: a request no handler consumed is answered
with the "method not found" error response. -/
def dispatchFinish :
    Option Request × List Task → Option Request × List Task
  | (some req, tasks) =>
      (Option.none,
        tasks ++ [.responseReady (.failure req.id methodNotFoundCode "method not found")])
  | (Option.none, tasks) => (Option.none, tasks)

/-- One complete dispatch round over a registration chain: `new`, a fold of
`on` registrations, then `finish`; the result is every spawned task. -/
def dispatch (req : Request) (handlers : List (String × (String → HandlerResult))) :
    List Task :=
  (dispatchFinish (handlers.foldl (fun st h => dispatchOn h.1 h.2 st) (some req, []))).2

/-- A small concrete module used by the witnesses: literals, a list, a
tuple, unary expressions, names, a dict, an index expression and two empty
collections. -/
def sampleModule : Module where
  exprs := fun e =>
    match e with
    | 0 => .lit .int
    | 1 => .lit .int
    | 2 => .list [0, 1]
    | 3 => .tuple []
    | 4 => .unary (some .not) 3
    | 5 => .name "a"
    | 6 => .name "b"
    | 7 => .lit .string
    | 8 => .dict [(0, 7), (1, 7)]
    | 9 => .index 2 0
    | 10 => .list []
    | 11 => .dict []
    | 12 => .unary (some .not) 0
    | _ => .missing
  resolve := fun _ => Option.none
  exprRange := fun _ => some ⟨0, 1⟩
  assignParent := fun _ => .otherParent

/-- A concrete database over `sampleModule` with an empty builtin catalog. -/
def sampleDb : Db where
  module := fun _ => sampleModule
  stringFields := []
  bytesFields := []
  listFields := []
  dictFields := []
  builtinRetTy := fun _ => .unknown

mutual
/-- All `BoundVar` indices occurring in a type are `< n` (the
well-formedness premise of the substitution identity law). -/
def Ty.bvLt (n : Nat) : Ty → Bool
  | .list ty => ty.bvLt n
  | .tuple tys => Ty.bvLtList n tys
  | .dict keyTy valueTy => keyTy.bvLt n && valueTy.bvLt n
  | .builtinFunction _ substArgs => Ty.bvLtList n substArgs
  | .boundVar index => index < n
  | _ => true

/-- `Ty.bvLt` over a list of types. -/
def Ty.bvLtList (n : Nat) : List Ty → Bool
  | [] => true
  | t :: ts => t.bvLt n && Ty.bvLtList n ts
end

end Starpls

namespace Starpls

theorem identity_args_get (n i : Nat) (h : i < n) :
    (Substitution.new_identity n).args[i]? = some (.boundVar i) := by
  simp [Substitution.new_identity, List.getElem?_map, List.getElem?_range h]

mutual
theorem substitute_identity_aux (n : Nat) (t : Ty) (h : t.bvLt n = true) :
    t.substitute (Substitution.new_identity n).args = some t := by
  cases t with
  | list ty =>
      rw [Ty.bvLt] at h
      rw [Ty.substitute, substitute_identity_aux n ty h, Option.map_some']
  | tuple tys =>
      rw [Ty.bvLt] at h
      rw [Ty.substitute, substitute_identity_list_aux n tys h, Option.map_some']
  | dict keyTy valueTy =>
      rw [Ty.bvLt, Bool.and_eq_true] at h
      rw [Ty.substitute, substitute_identity_aux n keyTy h.1,
        substitute_identity_aux n valueTy h.2]
      rfl
  | builtinFunction f substArgs =>
      rw [Ty.bvLt] at h
      rw [Ty.substitute, substitute_identity_list_aux n substArgs h, Option.map_some']
  | boundVar index =>
      rw [Ty.bvLt, decide_eq_true_eq] at h
      rw [Ty.substitute, identity_args_get n index h]
  | unbound => rfl
  | unknown => rfl
  | any => rfl
  | none => rfl
  | bool => rfl
  | int => rfl
  | float => rfl
  | string => rfl
  | stringElems => rfl
  | bytes => rfl
  | bytesElems => rfl
  | range => rfl

theorem substitute_identity_list_aux (n : Nat) (ts : List Ty)
    (h : Ty.bvLtList n ts = true) :
    Ty.substituteList ts (Substitution.new_identity n).args = some ts := by
  cases ts with
  | nil => rfl
  | cons t ts =>
      rw [Ty.bvLtList, Bool.and_eq_true] at h
      rw [Ty.substituteList, substitute_identity_aux n t h.1,
        substitute_identity_list_aux n ts h.2]
      rfl
end

theorem infer_cached (fuel : Nat) (db : Db) (file e : Nat) (s : St) (ty : Ty)
    (h : lookupCache s.cx.type_of_expr ⟨file, e⟩ = some ty) :
    infer fuel db file e s = (.ok ty, s) := by
  rw [infer.eq_def]
  cases fuel <;> rw [h]

/-- C1: `infer_expr` consults the memo map before anything else — a cached
id is returned as-is even while the cancellation flag is set — and on a
cache miss with the flag set it raises the typecheck-cancellation signal
with the shared state (memo map and diagnostics) untouched. -/
theorem infer_memo_lookup_precedes_cancellation (fuel : Nat) (db : Db)
    (file e : Nat) (s : St) :
    (∀ ty, lookupCache s.cx.type_of_expr ⟨file, e⟩ = some ty →
      infer fuel db file e s = (.ok ty, s)) ∧
    (lookupCache s.cx.type_of_expr ⟨file, e⟩ = Option.none → s.cancelled = true →
      infer fuel db file e s = (.error .cancelled, s)) := by
  constructor
  · intro ty h
    exact infer_cached fuel db file e s ty h
  · intro h hc
    rw [infer.eq_def]
    cases fuel <;> rw [h] <;> simp [hc]

theorem infer_memo_lookup_precedes_cancellation_witness :
    infer 0 sampleDb 0 0
        ⟨true, ⟨[], [(⟨0, 0⟩, Ty.int)]⟩⟩ =
      (.ok Ty.int, ⟨true, ⟨[], [(⟨0, 0⟩, Ty.int)]⟩⟩) ∧
    infer 0 sampleDb 0 1
        ⟨true, ⟨[], [(⟨0, 0⟩, Ty.int)]⟩⟩ =
      (.error .cancelled, ⟨true, ⟨[], [(⟨0, 0⟩, Ty.int)]⟩⟩) :=
  ⟨(infer_memo_lookup_precedes_cancellation 0 sampleDb 0 0 _).1 Ty.int rfl,
   (infer_memo_lookup_precedes_cancellation 0 sampleDb 0 1 _).2 rfl rfl⟩

/-- C2: releasing (dropping) a `CancelGuard` clears the cancellation flag
and replaces the whole shared inference state — memo map and diagnostics —
with the empty default: afterwards every `FileExprId` lookup misses and
`infer_expr` behaves exactly as from the pristine initial state, i.e. it
recomputes from scratch. -/
theorem cancelGuard_release_resets_state (s : St) :
    (CancelGuard.drop s).cancelled = false ∧
    (CancelGuard.drop s).cx.type_of_expr = [] ∧
    (CancelGuard.drop s).cx.diagnostics = [] ∧
    (∀ fid : FileExprId,
      lookupCache (CancelGuard.drop s).cx.type_of_expr fid = Option.none) ∧
    (∀ (fuel : Nat) (db : Db) (file e : Nat),
      infer fuel db file e (CancelGuard.drop s) = infer fuel db file e ({} : St)) :=
  ⟨rfl, rfl, rfl, fun _ => rfl, fun _ _ _ _ => rfl⟩

/-- C4: substituting a type whose `BoundVar` indices are all `< n` with the
identity substitution of size `n` returns the type unchanged (and in
particular hits no out-of-range index). -/
theorem substitute_identity (n : Nat) (t : Ty) (h : t.bvLt n = true) :
    t.substitute (Substitution.new_identity n).args = some t :=
  substitute_identity_aux n t h

theorem dispatch_foldl_consumed (handlers : List (String × (String → HandlerResult)))
    (tasks : List Task) :
    handlers.foldl (fun st h => dispatchOn h.1 h.2 st) (Option.none, tasks) =
      (Option.none, tasks) := by
  induction handlers with
  | nil => rfl
  | cons hd rest ih => simpa [dispatchOn] using ih

/-- C3: a dispatched request whose handler's error downcasts to the
cancellation signal is resubmitted unchanged (the very same request value,
hence same id, method and params) as the sole spawned task — a `Retry`, not
a response; a request no registered handler's method matches is answered
with the "method not found" error response. -/
theorem dispatcher_retry_on_cancel_and_method_not_found (req : Request)
    (handlers : List (String × (String → HandlerResult))) :
    (∀ p, handlers.find? (fun q => q.1 == req.method) = some p →
      p.2 req.params = .errCancelled →
      dispatch req handlers = [.retry req]) ∧
    (handlers.find? (fun q => q.1 == req.method) = Option.none →
      dispatch req handlers =
        [.responseReady (.failure req.id methodNotFoundCode "method not found")]) := by
  induction handlers with
  | nil =>
      exact ⟨fun p hp => by simp at hp, fun _ => rfl⟩
  | cons hd rest ih =>
      by_cases hm : hd.1 = req.method
      · have hstep : dispatchOn hd.1 hd.2 (some req, ([] : List Task)) =
            (Option.none, [onTask req hd.2]) := by
          simp [dispatchOn, hm]
        constructor
        · intro p hfind hcanc
          rw [List.find?_cons_of_pos _ (by simpa using hm)] at hfind
          obtain rfl : hd = p := by injection hfind
          simp only [dispatch, List.foldl_cons]
          rw [hstep, dispatch_foldl_consumed]
          simp [dispatchFinish, onTask, hcanc]
        · intro hfind
          rw [List.find?_cons_of_pos _ (by simpa using hm)] at hfind
          exact Option.noConfusion hfind
      · have hreq : ¬req.method = hd.1 := fun h => hm h.symm
        have hstep : dispatchOn hd.1 hd.2 (some req, ([] : List Task)) =
            (some req, []) := by
          simp [dispatchOn, hreq]
        have hdisp : dispatch req (hd :: rest) = dispatch req rest := by
          simp only [dispatch, List.foldl_cons]
          rw [hstep]
        constructor
        · intro p hfind hcanc
          rw [List.find?_cons_of_neg _ (by simpa using hm)] at hfind
          rw [hdisp]
          exact ih.1 p hfind hcanc
        · intro hfind
          rw [List.find?_cons_of_neg _ (by simpa using hm)] at hfind
          rw [hdisp]
          exact ih.2 hfind

theorem dispatcher_retry_on_cancel_and_method_not_found_witness :
    dispatch ⟨1, "m", "p"⟩ [("m", fun _ => HandlerResult.errCancelled)] =
      [.retry ⟨1, "m", "p"⟩] ∧
    dispatch ⟨2, "x", "p"⟩ [("m", fun _ => HandlerResult.errCancelled)] =
      [.responseReady (.failure 2 methodNotFoundCode "method not found")] :=
  ⟨(dispatcher_retry_on_cancel_and_method_not_found ⟨1, "m", "p"⟩ _).1
      ("m", fun _ => HandlerResult.errCancelled) rfl rfl,
   (dispatcher_retry_on_cancel_and_method_not_found ⟨2, "x", "p"⟩ _).2 rfl⟩

/-- C5 counterexample: expression 4 of `sampleModule` is `not` applied to an
empty tuple literal; the tuple infers `Any`, and the whole `not` expression
then infers `Any`, not `Bool` — refuting "for every unary not expression
infer_expr returns Bool ... in particular also when the operand's type is
Any". -/
theorem infer_not_any_operand_counterexample :
    (infer 3 sampleDb 0 4 ({} : St)).1 = .ok Ty.any ∧ Ty.any ≠ Ty.bool :=
  ⟨rfl, by decide⟩

/-- C5 (amended): a unary `not` expression infers `Bool` for every operand
type except `Any`; an `Any` operand short-circuits the whole expression to
`Any` before the operator is examined. -/
theorem infer_not_bool_except_any (fuel : Nat) (db : Db) (file e x : Nat)
    (s : St) (t : Ty)
    (hexpr : (db.module file).exprs e = .unary (some .not) x)
    (hx : lookupCache s.cx.type_of_expr ⟨file, x⟩ = some t)
    (he : lookupCache s.cx.type_of_expr ⟨file, e⟩ = Option.none)
    (hcancel : s.cancelled = false) :
    infer (fuel + 2) db file e s =
      (.ok (if t = .any then .any else .bool),
        (setExprType file e (if t = .any then .any else .bool) s).2) := by
  have hu : inferUnary (fuel + 1) db file e x .not s =
      (.ok (if t = .any then .any else .bool), s) := by
    simp only [inferUnary, infer_cached fuel db file x s t hx]
    by_cases ht : t = .any <;> simp [ht]
  simp only [infer, he, hexpr, hcancel, Bool.false_eq_true, if_false, hu]
  by_cases ht : t = .any <;> simp [ht, setR, setExprType]

theorem infer_not_bool_except_any_witness :
    infer 2 sampleDb 0 12 ⟨false, ⟨[], [(⟨0, 0⟩, Ty.int)]⟩⟩ =
      (.ok Ty.bool,
        (setExprType 0 12 Ty.bool ⟨false, ⟨[], [(⟨0, 0⟩, Ty.int)]⟩⟩).2) := by
  simpa using
    infer_not_bool_except_any 0 sampleDb 0 12 0 ⟨false, ⟨[], [(⟨0, 0⟩, Ty.int)]⟩⟩
      Ty.int rfl rfl rfl rfl

/-- C10: an empty list literal infers `List(Unknown)` and an empty dict
literal infers `Dict(Any, Unknown)` — with no elements the common-type
computation returns its default (`Unknown` for list elements and dict
values, `Any` for dict keys). -/
theorem infer_empty_collections (fuel : Nat) (db : Db) (file e : Nat) (s : St)
    (he : lookupCache s.cx.type_of_expr ⟨file, e⟩ = Option.none)
    (hcancel : s.cancelled = false) :
    ((db.module file).exprs e = .list [] →
      infer (fuel + 1) db file e s =
        (.ok (.list .unknown), (setExprType file e (.list .unknown) s).2)) ∧
    ((db.module file).exprs e = .dict [] →
      infer (fuel + 1) db file e s =
        (.ok (.dict .any .unknown), (setExprType file e (.dict .any .unknown) s).2)) := by
  constructor
  · intro hexpr
    rw [infer.eq_def, he, hexpr]
    cases fuel <;> simp [hcancel, getCommonType, setR, setExprType]
  · intro hexpr
    rw [infer.eq_def, he, hexpr]
    cases fuel <;> simp [hcancel, getCommonType, setR, setExprType]

theorem infer_empty_collections_witness :
    infer 1 sampleDb 0 10 ({} : St) =
      (.ok (.list .unknown), (setExprType 0 10 (.list .unknown) ({} : St)).2) ∧
    infer 1 sampleDb 0 11 ({} : St) =
      (.ok (.dict .any .unknown), (setExprType 0 11 (.dict .any .unknown) ({} : St)).2) :=
  ⟨(infer_empty_collections 0 sampleDb 0 10 ({} : St) rfl rfl).1 rfl,
   (infer_empty_collections 0 sampleDb 0 11 ({} : St) rfl rfl).2 rfl⟩

/-- C6: indexing `lhs[idx]` with inferred receiver type `lt` and index type
`it` behaves by cases: `List(T)` indexed by `Int` yields `T`; `List(T)`
indexed by anything else appends the "cannot index list" diagnostic and
yields `Unknown`; `Dict(K,V)` yields `V` when `it = K` and otherwise appends
the "cannot index dict" diagnostic with `Unknown`; an `Unknown`/`Any`
receiver yields `Unknown` with no diagnostic; every other receiver kind
appends the "not indexable" diagnostic and yields `Unknown`. -/
theorem infer_index_cases (fuel : Nat) (db : Db) (file e l i : Nat) (s : St)
    (lt it : Ty) (rng : TextRange)
    (hexpr : (db.module file).exprs e = .index l i)
    (hl : lookupCache s.cx.type_of_expr ⟨file, l⟩ = some lt)
    (hi : lookupCache s.cx.type_of_expr ⟨file, i⟩ = some it)
    (he : lookupCache s.cx.type_of_expr ⟨file, e⟩ = Option.none)
    (hcancel : s.cancelled = false)
    (hrng : (db.module file).exprRange l = some rng) :
    (∀ T, lt = .list T → it = .int →
      infer (fuel + 1) db file e s =
        (.ok T, { s with cx := { s.cx with
          type_of_expr := (⟨file, e⟩, T) :: s.cx.type_of_expr } })) ∧
    (∀ T, lt = .list T → it ≠ .int →
      infer (fuel + 1) db file e s =
        (.ok .unknown, { s with cx :=
          { diagnostics := s.cx.diagnostics ++ [⟨.cannotIndexList it, .error, ⟨file, rng⟩⟩],
            type_of_expr := (⟨file, e⟩, .unknown) :: s.cx.type_of_expr } })) ∧
    (∀ K V, lt = .dict K V → it = K →
      infer (fuel + 1) db file e s =
        (.ok V, { s with cx := { s.cx with
          type_of_expr := (⟨file, e⟩, V) :: s.cx.type_of_expr } })) ∧
    (∀ K V, lt = .dict K V → it ≠ K →
      infer (fuel + 1) db file e s =
        (.ok .unknown, { s with cx :=
          { diagnostics := s.cx.diagnostics ++ [⟨.cannotIndexDict it, .error, ⟨file, rng⟩⟩],
            type_of_expr := (⟨file, e⟩, .unknown) :: s.cx.type_of_expr } })) ∧
    (lt = .unknown ∨ lt = .any →
      infer (fuel + 1) db file e s =
        (.ok .unknown, { s with cx := { s.cx with
          type_of_expr := (⟨file, e⟩, .unknown) :: s.cx.type_of_expr } })) ∧
    ((∀ T, lt ≠ .list T) → (∀ K V, lt ≠ .dict K V) → lt ≠ .unknown → lt ≠ .any →
      infer (fuel + 1) db file e s =
        (.ok .unknown, { s with cx :=
          { diagnostics := s.cx.diagnostics ++ [⟨.notIndexable lt, .error, ⟨file, rng⟩⟩],
            type_of_expr := (⟨file, e⟩, .unknown) :: s.cx.type_of_expr } })) := by
  have hle : infer fuel db file l s = (.ok lt, s) :=
    infer_cached fuel db file l s lt hl
  have hie : infer fuel db file i s = (.ok it, s) :=
    infer_cached fuel db file i s it hi
  refine ⟨?_, ?_, ?_, ?_, ?_, ?_⟩
  · intro T hT hInt
    subst hT
    subst hInt
    simp [infer, he, hexpr, hcancel, hle, hie, setR, setExprType]
  · intro T hT hne
    subst hT
    simp only [infer, he, hexpr, hcancel, Bool.false_eq_true, if_false, hle, hie]
    cases it <;>
      simp_all [setR, setExprType, addDiagnostic, hrng]
  · intro K V hT hik
    subst hT
    subst hik
    simp [infer, he, hexpr, hcancel, hle, hie, setR, setExprType]
  · intro K V hT hik
    subst hT
    have hcond : ¬(K = it) := fun h => hik h.symm
    simp [infer, he, hexpr, hcancel, hle, hie, hcond, setR, setExprType,
      addDiagnostic, hrng]
  · intro hlt
    rcases hlt with h | h <;> subst h <;>
      simp [infer, he, hexpr, hcancel, hle, hie, setR, setExprType]
  · intro h1 h2 h3 h4
    simp only [infer, he, hexpr, hcancel, Bool.false_eq_true, if_false, hle, hie]
    cases lt
    case list ty => exact absurd rfl (h1 ty)
    case dict k v => exact absurd rfl (h2 k v)
    case unknown => exact absurd rfl h3
    case any => exact absurd rfl h4
    all_goals simp [setR, setExprType, addDiagnostic, hrng, hcancel]

theorem infer_index_cases_witness :
    infer 1 sampleDb 0 9
        ⟨false, ⟨[], [(⟨0, 2⟩, .list .int), (⟨0, 0⟩, Ty.int)]⟩⟩ =
      (.ok Ty.int,
        { cancelled := false, cx :=
          { diagnostics := [],
            type_of_expr :=
              [(⟨0, 9⟩, Ty.int), (⟨0, 2⟩, .list .int), (⟨0, 0⟩, Ty.int)] } }) := by
  simpa using
    (infer_index_cases 0 sampleDb 0 9 2 0
        ⟨false, ⟨[], [(⟨0, 2⟩, .list .int), (⟨0, 0⟩, Ty.int)]⟩⟩
        (.list .int) .int ⟨0, 1⟩ rfl rfl rfl rfl rfl rfl).1 Ty.int rfl rfl

theorem inferAllEq_cached (db : Db) (file : Nat) (t0 : Ty) :
    ∀ (es : List Nat) (tys : List Ty) (fuel : Nat) (s : St),
      List.Forall₂
        (fun el t => lookupCache s.cx.type_of_expr ⟨file, el⟩ = some t) es tys →
      es.length < fuel →
      inferAllEq fuel db file es t0 s = (.ok (tys.all (· == t0)), s) := by
  intro es
  induction es with
  | nil =>
      intro tys fuel s hf hlen
      cases hf
      cases fuel with
      | zero => omega
      | succ f => simp [inferAllEq]
  | cons e rest ih =>
      intro tys fuel s hf hlen
      cases hf with
      | cons h0 hrest =>
          rename_i t ttail
          cases fuel with
          | zero => omega
          | succ f =>
              simp only [inferAllEq, infer_cached f db file e s t h0]
              by_cases hteq : t = t0
              · rw [if_pos hteq]
                subst hteq
                rw [ih ttail f s hrest (by simpa using hlen)]
                simp
              · rw [if_neg hteq]
                have hb : (t == t0) = false := by simpa using hteq
                simp [hb]

theorem getCommonType_cached (db : Db) (file : Nat) (dflt : Ty) (e0 : Nat)
    (rest : List Nat) (t0 : Ty) (trest : List Ty) (fuel : Nat) (s : St)
    (h0 : lookupCache s.cx.type_of_expr ⟨file, e0⟩ = some t0)
    (hf : List.Forall₂
      (fun el t => lookupCache s.cx.type_of_expr ⟨file, el⟩ = some t) rest trest)
    (hlen : (e0 :: rest).length < fuel) :
    getCommonType fuel db file (e0 :: rest) dflt s =
      (.ok (if trest.all (· == t0) then t0 else dflt), s) := by
  cases fuel with
  | zero => simp at hlen
  | succ g =>
      simp only [getCommonType, infer_cached g db file e0 s t0 h0]
      rw [inferAllEq_cached db file t0 rest trest g s hf (by simpa using hlen)]
      cases hall : trest.all (· == t0) <;> simp [hall]

/-- C7: a non-empty list literal whose elements' inferred types are
`t0 :: trest` infers `List(t0)` when every element type equals `t0`
(pairwise equality of all element types), and `List(Unknown)` otherwise;
the result is memoized under the literal's id. -/
theorem infer_list_literal_common_type (fuel : Nat) (db : Db) (file e : Nat)
    (elems : List Nat) (t0 : Ty) (trest : List Ty) (s : St)
    (hexpr : (db.module file).exprs e = .list elems)
    (hf : List.Forall₂
      (fun el t => lookupCache s.cx.type_of_expr ⟨file, el⟩ = some t)
      elems (t0 :: trest))
    (he : lookupCache s.cx.type_of_expr ⟨file, e⟩ = Option.none)
    (hcancel : s.cancelled = false)
    (hlen : elems.length < fuel) :
    infer (fuel + 1) db file e s =
      (.ok (.list (if trest.all (· == t0) then t0 else .unknown)),
        { s with cx := { s.cx with type_of_expr :=
          (⟨file, e⟩, .list (if trest.all (· == t0) then t0 else .unknown)) ::
            s.cx.type_of_expr } }) := by
  cases elems with
  | nil => cases hf
  | cons e0 rest =>
      cases hf with
      | cons h0 hrest =>
          have hg := getCommonType_cached db file .unknown e0 rest t0 trest fuel s
            h0 hrest hlen
          simp only [infer, he, hexpr, hcancel, Bool.false_eq_true, if_false, hg]
          simp [setR, setExprType, hcancel]

theorem infer_list_literal_common_type_witness :
    infer 4 sampleDb 0 2
        ⟨false, ⟨[], [(⟨0, 0⟩, Ty.int), (⟨0, 1⟩, Ty.int)]⟩⟩ =
      (.ok (.list .int),
        { cancelled := false, cx :=
          { diagnostics := [],
            type_of_expr :=
              [(⟨0, 2⟩, .list .int), (⟨0, 0⟩, Ty.int), (⟨0, 1⟩, Ty.int)] } }) := by
  simpa using
    infer_list_literal_common_type 3 sampleDb 0 2 [0, 1] Ty.int [Ty.int]
      ⟨false, ⟨[], [(⟨0, 0⟩, Ty.int), (⟨0, 1⟩, Ty.int)]⟩⟩
      rfl (.cons rfl (.cons rfl .nil)) rfl rfl (by decide)

/-- C8: a non-empty dict literal infers `Dict(K, V)` where `K` is the common
key type when all entry-key types are pairwise equal and `Any` otherwise,
and `V` is the common value type when all entry-value types are pairwise
equal and `Unknown` otherwise; the result is memoized under the literal's
id. -/
theorem infer_dict_literal_key_value (fuel : Nat) (db : Db) (file e : Nat)
    (entries : List (Nat × Nat)) (k0 v0 : Ty) (krest vrest : List Ty) (s : St)
    (hexpr : (db.module file).exprs e = .dict entries)
    (hk : List.Forall₂
      (fun el t => lookupCache s.cx.type_of_expr ⟨file, el⟩ = some t)
      (entries.map Prod.fst) (k0 :: krest))
    (hv : List.Forall₂
      (fun el t => lookupCache s.cx.type_of_expr ⟨file, el⟩ = some t)
      (entries.map Prod.snd) (v0 :: vrest))
    (he : lookupCache s.cx.type_of_expr ⟨file, e⟩ = Option.none)
    (hcancel : s.cancelled = false)
    (hlen : entries.length < fuel) :
    infer (fuel + 1) db file e s =
      (.ok (.dict (if krest.all (· == k0) then k0 else .any)
          (if vrest.all (· == v0) then v0 else .unknown)),
        { s with cx := { s.cx with type_of_expr :=
          (⟨file, e⟩,
            .dict (if krest.all (· == k0) then k0 else .any)
              (if vrest.all (· == v0) then v0 else .unknown)) ::
            s.cx.type_of_expr } }) := by
  cases entries with
  | nil => cases hk
  | cons p ps =>
      rw [List.map_cons] at hk hv
      cases hk with
      | cons hk0 hkrest =>
          cases hv with
          | cons hv0 hvrest =>
              have hgk := getCommonType_cached db file .any p.1 (ps.map Prod.fst)
                k0 krest fuel s hk0 hkrest (by simpa using hlen)
              have hgv := getCommonType_cached db file .unknown p.2 (ps.map Prod.snd)
                v0 vrest fuel s hv0 hvrest (by simpa using hlen)
              simp only [infer, he, hexpr, hcancel, Bool.false_eq_true, if_false,
                List.map_cons, hgk, hgv]
              simp [setR, setExprType, hcancel]

theorem infer_dict_literal_key_value_witness :
    infer 4 sampleDb 0 8
        ⟨false, ⟨[], [(⟨0, 0⟩, Ty.int), (⟨0, 1⟩, Ty.int), (⟨0, 7⟩, Ty.string)]⟩⟩ =
      (.ok (.dict .int .string),
        { cancelled := false, cx :=
          { diagnostics := [],
            type_of_expr :=
              [(⟨0, 8⟩, .dict .int .string), (⟨0, 0⟩, Ty.int), (⟨0, 1⟩, Ty.int),
                (⟨0, 7⟩, Ty.string)] } }) := by
  simpa using
    infer_dict_literal_key_value 3 sampleDb 0 8 [(0, 7), (1, 7)]
      Ty.int Ty.string [Ty.int] [Ty.string]
      ⟨false, ⟨[], [(⟨0, 0⟩, Ty.int), (⟨0, 1⟩, Ty.int), (⟨0, 7⟩, Ty.string)]⟩⟩
      rfl (.cons rfl (.cons rfl .nil)) (.cons rfl (.cons rfl .nil)) rfl rfl
      (by decide)

theorem lookup_append_of_mem (pre rest : List (FileExprId × Ty))
    (k : FileExprId) (v : Ty) (hmem : (k, v) ∈ pre)
    (hall : ∀ p ∈ pre, p.2 = v) :
    lookupCache (pre ++ rest) k = some v := by
  induction pre with
  | nil => simp at hmem
  | cons p ps ih =>
      rw [List.cons_append, lookupCache]
      by_cases hk : p.1 = k
      · rw [if_pos hk]
        exact congrArg some (hall p (by simp))
      · rw [if_neg hk]
        rcases List.mem_cons.mp hmem with h | h
        · subst h
          exact absurd rfl hk
        · exact ih h (fun q hq => hall q (by simp [hq]))

theorem assignSourceList_names (db : Db) (file root : Nat) (ty : Ty) :
    ∀ (es : List Nat) (fuel : Nat) (s : St),
      (∀ t ∈ es, ∃ nm, (db.module file).exprs t = .name nm) →
      es.length < fuel →
      ∃ pre, assignSourceList fuel db file root es ty s =
          (.ok (), { s with cx :=
            { s.cx with type_of_expr := pre ++ s.cx.type_of_expr } }) ∧
        (∀ p ∈ pre, p.2 = ty) ∧ (∀ t ∈ es, (⟨file, t⟩, ty) ∈ pre) := by
  intro es
  induction es with
  | nil =>
      intro fuel s hnames hlen
      cases fuel with
      | zero => omega
      | succ f => exact ⟨[], by simp [assignSourceList], by simp, by simp⟩
  | cons e rest ih =>
      intro fuel s hnames hlen
      cases fuel with
      | zero => omega
      | succ f =>
          cases f with
          | zero => simp at hlen
          | succ f2 =>
              obtain ⟨nm, hnm⟩ := hnames e (by simp)
              have hstep : assignExprSourceTy (f2 + 1) db file root e ty s =
                  (.ok (), (setExprType file e ty s).2) := by
                simp [assignExprSourceTy, hnm]
              obtain ⟨pre, hrun, hall, hmem⟩ :=
                ih (f2 + 1) ((setExprType file e ty s).2)
                  (fun t ht => hnames t (by simp [ht]))
                  (by simp at hlen ⊢; omega)
              refine ⟨pre ++ [(⟨file, e⟩, ty)], ?_, ?_, ?_⟩
              · rw [assignSourceList.eq_def]
                simp only [hstep]
                rw [hrun]
                simp [setExprType, List.append_assoc]
              · intro p hp
                rcases List.mem_append.mp hp with h | h
                · exact hall p h
                · simp at h
                  rw [h]
              · intro t ht
                rcases List.mem_cons.mp ht with h | h
                · subst h
                  exact List.mem_append.mpr (Or.inr (by simp))
                · exact List.mem_append.mpr (Or.inl (hmem t h))

mutual
theorem assignExprUnknownRec_spec :
    ∀ (fuel : Nat) (db : Db) (file e : Nat) (s : St) (u : Unit) (s2 : St),
      assignExprUnknownRec fuel db file e s = (.ok u, s2) →
      ∃ pre, s2 = { s with cx :=
          { s.cx with type_of_expr := pre ++ s.cx.type_of_expr } } ∧
        (∀ p ∈ pre, p.2 = Ty.unknown) ∧
        ∀ d ∈ exprDescendants fuel db file e, (⟨file, d⟩, Ty.unknown) ∈ pre
  | 0, db, file, e, s, u, s2 => by
      simp [assignExprUnknownRec]
  | f + 1, db, file, e, s, u, s2 => by
      intro h
      simp only [assignExprUnknownRec] at h
      obtain ⟨pre, hs2, hall, hmem⟩ :=
        unknownRecList_spec f db file (((db.module file).exprs e).children)
          ((setExprType file e .unknown s).2) u s2 h
      refine ⟨pre ++ [(⟨file, e⟩, .unknown)], ?_, ?_, ?_⟩
      · rw [hs2]
        simp [setExprType, List.append_assoc]
      · intro p hp
        rcases List.mem_append.mp hp with hh | hh
        · exact hall p hh
        · simp at hh
          rw [hh]
      · intro d hd
        simp only [exprDescendants] at hd
        rcases List.mem_cons.mp hd with hh | hh
        · subst hh
          exact List.mem_append.mpr (Or.inr (by simp))
        · exact List.mem_append.mpr (Or.inl (hmem d hh))

theorem unknownRecList_spec :
    ∀ (fuel : Nat) (db : Db) (file : Nat) (es : List Nat) (s : St) (u : Unit)
      (s2 : St),
      unknownRecList fuel db file es s = (.ok u, s2) →
      ∃ pre, s2 = { s with cx :=
          { s.cx with type_of_expr := pre ++ s.cx.type_of_expr } } ∧
        (∀ p ∈ pre, p.2 = Ty.unknown) ∧
        ∀ d ∈ descendantsList fuel db file es, (⟨file, d⟩, Ty.unknown) ∈ pre
  | 0, db, file, es, s, u, s2 => by
      simp [unknownRecList]
  | f + 1, db, file, [], s, u, s2 => by
      intro h
      simp only [unknownRecList] at h
      have hs : s2 = s := (congrArg Prod.snd h).symm
      subst hs
      exact ⟨[], by simp, by simp, by simp [descendantsList]⟩
  | f + 1, db, file, e :: rest, s, u, s2 => by
      intro h
      simp only [unknownRecList] at h
      cases hrec : assignExprUnknownRec f db file e s with
      | mk r s1 =>
          cases r with
          | ok v =>
              rw [hrec] at h
              obtain ⟨pre1, hs1, hall1, hmem1⟩ :=
                assignExprUnknownRec_spec f db file e s v s1 hrec
              obtain ⟨pre2, hs2, hall2, hmem2⟩ :=
                unknownRecList_spec f db file rest s1 u s2 h
              refine ⟨pre2 ++ pre1, ?_, ?_, ?_⟩
              · rw [hs2, hs1]
                simp [List.append_assoc]
              · intro p hp
                rcases List.mem_append.mp hp with hh | hh
                · exact hall2 p hh
                · exact hall1 p hh
              · intro d hd
                simp only [descendantsList] at hd
                rcases List.mem_append.mp hd with hh | hh
                · exact List.mem_append.mpr (Or.inr (hmem1 d hh))
                · exact List.mem_append.mpr (Or.inl (hmem2 d hh))
          | error err =>
              rw [hrec] at h
              simp at h
end

/-- C9: destructuring assignment through a `List`/`Tuple` target pattern:
a `List(T)` source assigns `T` to every (name) target, a `Tuple` or `Any`
source assigns `Any` to every (name) target, with no diagnostic in either
case; any other source kind appends the "not iterable" diagnostic at the
root and force-assigns `Unknown` to every target and, recursively, every
one of its sub-expressions, so each visited id has a cache entry. -/
theorem assign_destructure_targets (fuel : Nat) (db : Db) (file root : Nat)
    (targets : List Nat) (s : St) :
    ((∀ t ∈ targets, ∃ nm, (db.module file).exprs t = .name nm) →
      targets.length < fuel →
      (∀ T, ∃ s2,
        assignExprsSourceTy (fuel + 1) db file root targets (.list T) s =
          (.ok (), s2) ∧
        (∀ t ∈ targets, lookupCache s2.cx.type_of_expr ⟨file, t⟩ = some T) ∧
        s2.cx.diagnostics = s.cx.diagnostics) ∧
      (∀ ts, ∃ s2,
        assignExprsSourceTy (fuel + 1) db file root targets (.tuple ts) s =
          (.ok (), s2) ∧
        (∀ t ∈ targets, lookupCache s2.cx.type_of_expr ⟨file, t⟩ = some .any) ∧
        s2.cx.diagnostics = s.cx.diagnostics) ∧
      (∃ s2,
        assignExprsSourceTy (fuel + 1) db file root targets .any s =
          (.ok (), s2) ∧
        (∀ t ∈ targets, lookupCache s2.cx.type_of_expr ⟨file, t⟩ = some .any) ∧
        s2.cx.diagnostics = s.cx.diagnostics)) ∧
    (∀ (srcTy : Ty) (rng : TextRange),
      (∀ T, srcTy ≠ .list T) → (∀ ts, srcTy ≠ .tuple ts) → srcTy ≠ .any →
      (db.module file).exprRange root = some rng →
      ∀ (u : Unit) (s2 : St),
        assignExprsSourceTy (fuel + 1) db file root targets srcTy s =
          (.ok u, s2) →
        s2.cx.diagnostics =
          s.cx.diagnostics ++ [⟨.notIterable srcTy, .error, ⟨file, rng⟩⟩] ∧
        ∀ d ∈ descendantsList fuel db file targets,
          lookupCache s2.cx.type_of_expr ⟨file, d⟩ = some .unknown) := by
  constructor
  · intro hnames hlen
    have main : ∀ sub : Ty, ∃ s2,
        assignSourceList fuel db file root targets sub s = (.ok (), s2) ∧
        (∀ t ∈ targets, lookupCache s2.cx.type_of_expr ⟨file, t⟩ = some sub) ∧
        s2.cx.diagnostics = s.cx.diagnostics := by
      intro sub
      obtain ⟨pre, hrun, hall, hmem⟩ :=
        assignSourceList_names db file root sub targets fuel s hnames hlen
      refine ⟨_, hrun, ?_, by simp⟩
      intro t ht
      exact lookup_append_of_mem pre s.cx.type_of_expr ⟨file, t⟩ sub
        (hmem t ht) hall
    refine ⟨fun T => ?_, fun ts => ?_, ?_⟩
    · obtain ⟨s2, h1, h2, h3⟩ := main T
      exact ⟨s2, by simpa [assignExprsSourceTy] using h1, h2, h3⟩
    · obtain ⟨s2, h1, h2, h3⟩ := main .any
      exact ⟨s2, by simpa [assignExprsSourceTy] using h1, h2, h3⟩
    · obtain ⟨s2, h1, h2, h3⟩ := main .any
      exact ⟨s2, by simpa [assignExprsSourceTy] using h1, h2, h3⟩
  · intro srcTy rng h1 h2 h3 hrng u s2 hrun
    have hrun2 : unknownRecList fuel db file targets
        (addDiagnostic db file root (.notIterable srcTy) s).2 = (.ok u, s2) := by
      cases srcTy
      case list T => exact absurd rfl (h1 T)
      case tuple ts => exact absurd rfl (h2 ts)
      case any => exact absurd rfl h3
      all_goals simpa [assignExprsSourceTy] using hrun
    obtain ⟨pre, hs2, hall, hmem⟩ :=
      unknownRecList_spec fuel db file targets _ u s2 hrun2
    constructor
    · rw [hs2]
      simp [addDiagnostic, hrng]
    · intro d hd
      rw [hs2]
      exact lookup_append_of_mem pre _ ⟨file, d⟩ .unknown (hmem d hd) hall

theorem assign_destructure_targets_witness :
    (∃ s2, assignExprsSourceTy 5 sampleDb 0 0 [5, 6] (.list .int) ({} : St) =
        (.ok (), s2) ∧
      (∀ t ∈ [5, 6], lookupCache s2.cx.type_of_expr ⟨0, t⟩ = some Ty.int) ∧
      s2.cx.diagnostics = ({} : St).cx.diagnostics) ∧
    ((⟨false, ⟨[⟨.notIterable .int, .error, ⟨0, ⟨0, 1⟩⟩⟩],
        [(⟨0, 6⟩, .unknown), (⟨0, 5⟩, .unknown)]⟩⟩ : St).cx.diagnostics =
      ({} : St).cx.diagnostics ++ [⟨.notIterable .int, .error, ⟨0, ⟨0, 1⟩⟩⟩] ∧
      ∀ d ∈ descendantsList 4 sampleDb 0 [5, 6],
        lookupCache (⟨false, ⟨[⟨.notIterable .int, .error, ⟨0, ⟨0, 1⟩⟩⟩],
          [(⟨0, 6⟩, .unknown), (⟨0, 5⟩, .unknown)]⟩⟩ : St).cx.type_of_expr ⟨0, d⟩ =
          some .unknown) := by
  have hnames : ∀ t ∈ [5, 6], ∃ nm, (sampleDb.module 0).exprs t = .name nm := by
    intro t ht
    simp at ht
    rcases ht with rfl | rfl
    · exact ⟨"a", rfl⟩
    · exact ⟨"b", rfl⟩
  refine ⟨((assign_destructure_targets 4 sampleDb 0 0 [5, 6] {}).1 hnames
    (by decide)).1 Ty.int, ?_⟩
  exact (assign_destructure_targets 4 sampleDb 0 0 [5, 6] {}).2 Ty.int ⟨0, 1⟩
    (fun T h => Ty.noConfusion h) (fun ts h => Ty.noConfusion h)
    (fun h => Ty.noConfusion h) rfl ()
    ⟨false, ⟨[⟨.notIterable .int, .error, ⟨0, ⟨0, 1⟩⟩⟩],
      [(⟨0, 6⟩, .unknown), (⟨0, 5⟩, .unknown)]⟩⟩ rfl

theorem substitute_identity_witness :
    Ty.bvLt 2 (.dict (.boundVar 0) (.list (.boundVar 1))) = true ∧
    Ty.substitute (.dict (.boundVar 0) (.list (.boundVar 1)))
        (Substitution.new_identity 2).args =
      some (.dict (.boundVar 0) (.list (.boundVar 1))) :=
  ⟨rfl, substitute_identity 2 (.dict (.boundVar 0) (.list (.boundVar 1))) rfl⟩

end Starpls
